import Mathlib

/-!
# GLSLProgram (CamelotGLRenderer/Source/GLSL/src/CmGLSLProgram.cpp)

A shallow embedding of the GLSL shader object of the renderer: the macro
configuration loop of `loadFromSource`, the shader lifecycle
(`loadFromSource`, `compile`, `unloadImpl`), the attachment tree walks
(`attachToProgramObject`, `detachFromProgramObject`), the constant table
construction (`buildConstantDefinitions`) and the two operation-type
converters.

C++ strings are lists of characters, `String::npos` is `none`, and the GL
context is the chronological list of the calls made on it.  Everything the
translation unit only calls (the driver, the preprocessor, the constant
extractor) is a field of an explicit environment.
-/

namespace CamelotEngine

/-! ## Strings -/

/-- The C++ `String`, as the list of its characters. -/
abbrev CString := List Char

/-- The scan of `find_first_of` over the characters left, `i` being the index of
the first of them. -/
def findFrom (delims : CString) : CString → Nat → Option Nat
  | [], _ => none
  | c :: cs, i => if delims.contains c then some i else findFrom delims cs (i + 1)

/-- The call `s.find_first_of(delims, pos)`: the first index at or after `pos`
holding one of `delims`, `none` standing for `String::npos`. -/
def find_first_of (s delims : CString) (pos : Nat) : Option Nat :=
  findFrom delims (s.drop pos) pos

/-- The characters `s.c_str() + start` ... of length `len`. -/
def substr (s : CString) (start len : Nat) : CString :=
  (s.drop start).take len

/-- The read `s[pos]`; reading at `size()` gives the terminating zero. -/
def charAt (s : CString) (pos : Nat) : Char :=
  s.getD pos (Char.ofNat 0)

/-! ## Preprocessor defines -/

/-- One call of `CPreprocessor::Define`, by overload: with a value text, or with
a `long` value. -/
inductive DefineCall where
  | text (name value : CString)
  | number (name : CString) (value : Nat)
  deriving DecidableEq, Repr

/-- The macro name a `Define` call passes. -/
def DefineCall.name : DefineCall → CString
  | .text n _ => n
  | .number n _ => n

/-- Modelled from the spec: the value of the macro a `Define` call creates.
`CPreprocessor` (CmGLSLPreprocessor) is not part of the sources at hand; the text
overload stores the text, and the `long` overload, used for an entry without a
value, "defines the macro with value `1`", the decimal text of its argument. -/
def DefineCall.value : DefineCall → CString
  | .text _ v => v
  | .number _ k => (Nat.repr k).toList

/-- The `(name, value)` pair a `Define` call hands to the preprocessor. -/
def DefineCall.define (c : DefineCall) : CString × CString :=
  (c.name, c.value)

/-- The `while (pos != String::npos)` loop of `loadFromSource`, lines 94-137.
`pos` is `none` for `String::npos`; `defs` are the `Define` calls made so far.
Each round of the loop takes one unit of `fuel`; the result is `none` when the
fuel is used up before the loop ends. -/
def macroLoop (s : CString) : Nat → Option Nat → List DefineCall → Option (List DefineCall)
  | 0, _, _ => none
  | _ + 1, none, defs => some defs
  | fuel + 1, some pos, defs =>
    -- Find delims
    match find_first_of s [';', ',', '='] pos with
    | some endPos =>
      let macro_name_start := pos
      let macro_name_len := endPos - pos
      let pos := endPos
      -- Check definition part
      if charAt s pos = '=' then
        -- set up a definition, skip delim
        let pos := pos + 1
        let macro_val_start := pos
        match find_first_of s [';', ','] pos with
        | none =>
          let macro_val_len := s.length - pos
          macroLoop s fuel none
            (defs ++ [.text (substr s macro_name_start macro_name_len)
              (substr s macro_val_start macro_val_len)])
        | some endPos =>
          let macro_val_len := endPos - pos
          macroLoop s fuel (some (endPos + 1))
            (defs ++ [.text (substr s macro_name_start macro_name_len)
              (substr s macro_val_start macro_val_len)])
      else
        -- No definition part, define as "1"
        macroLoop s fuel (some (pos + 1))
          (defs ++ [.number (substr s macro_name_start macro_name_len) 1])
    | none => macroLoop s fuel none defs

/-- Lines 90-138 of `loadFromSource`: the `Define` calls made for the macro
configuration string `mPreprocessorDefines`, none at all for the empty string.
The loop is given `size + 2` rounds, which `macroDefines_terminates` shows to be
enough for every string. -/
def macroDefines (mPreprocessorDefines : CString) : Option (List DefineCall) :=
  if mPreprocessorDefines.isEmpty then some []
  else macroLoop mPreprocessorDefines (mPreprocessorDefines.length + 2) (some 0) []

/-! ## Render operation types -/

/-- The enumeration `RenderOperation::OperationType`. -/
inductive OperationType where
  | OT_POINT_LIST
  | OT_LINE_LIST
  | OT_LINE_STRIP
  | OT_TRIANGLE_LIST
  | OT_TRIANGLE_STRIP
  | OT_TRIANGLE_FAN
  deriving DecidableEq, Repr

/-- The function `parseOperationType`, lines 354-381. -/
def parseOperationType (val : String) : OperationType :=
  if val = "point_list" then .OT_POINT_LIST
  else if val = "line_list" then .OT_LINE_LIST
  else if val = "line_strip" then .OT_LINE_STRIP
  else if val = "triangle_strip" then .OT_TRIANGLE_STRIP
  else if val = "triangle_fan" then .OT_TRIANGLE_FAN
  else
    -- Triangle list is the default fallback.
    .OT_TRIANGLE_LIST

/-- The function `operationTypeToString`, lines 383-407. -/
def operationTypeToString (val : OperationType) : String :=
  match val with
  | .OT_POINT_LIST => "point_list"
  | .OT_LINE_LIST => "line_list"
  | .OT_LINE_STRIP => "line_strip"
  | .OT_TRIANGLE_STRIP => "triangle_strip"
  | .OT_TRIANGLE_FAN => "triangle_fan"
  | .OT_TRIANGLE_LIST => "triangle_list"

/-! ## The GL context and the collaborators of the translation unit -/

/-- The enumeration `GpuProgramType`, as far as `loadFromSource` switches on it. -/
inductive GpuProgramType where
  | GPT_VERTEX_PROGRAM
  | GPT_FRAGMENT_PROGRAM
  | GPT_GEOMETRY_PROGRAM
  deriving DecidableEq, Repr

/-- The constant `GL_VERTEX_SHADER_ARB`. -/
def GL_VERTEX_SHADER_ARB : Nat := 0x8B31
/-- The constant `GL_FRAGMENT_SHADER_ARB`. -/
def GL_FRAGMENT_SHADER_ARB : Nat := 0x8B30
/-- The constant `GL_GEOMETRY_SHADER_EXT`. -/
def GL_GEOMETRY_SHADER_EXT : Nat := 0x8DD9
/-- The constant `GL_OBJECT_COMPILE_STATUS_ARB`. -/
def GL_OBJECT_COMPILE_STATUS_ARB : Nat := 0x8B81

/-- A call the translation unit makes on the graphics context, or on the info
log of one of its objects.  The context is the list of these calls, oldest
first. -/
inductive GLCall where
  | glCreateShaderObjectARB (shaderType : Nat)
  | glShaderSourceARB (shaderObj : Nat) (source : CString)
  | glCompileShaderARB (shaderObj : Nat)
  | glGetObjectParameterivARB (obj pname : Nat)
  | glAttachObjectARB (containerObj obj : Nat)
  | glDetachObjectARB (containerObj attachedObj : Nat)
  | glDeleteObjectARB (obj : Nat)
  | logObjectInfo (msg : String) (obj : Nat)
  deriving DecidableEq, Repr

/-- The exceptions of the translation unit: `RenderingAPIException` with its
description and the method that raised it. -/
inductive Exception where
  | RenderingAPIException (description : String) (source : String)
  deriving DecidableEq, Repr

/-- Modelled from the spec: one constant definition, the `GpuConstantDefinition`
of the parameter system, which is not part of the sources at hand: the
"reflected definition (type, array size ...)" of a uniform. -/
structure GpuConstantDefinition where
  constType : Nat
  arraySize : Nat
  deriving DecidableEq, Repr

/-- The constant table `mConstantDefs`: uniform names with their definitions;
`List.lookup` reads the definition of a name. -/
abbrev GpuNamedConstants := List (CString × GpuConstantDefinition)

/-- What the translation unit calls and does not define: the driver behind the
GL entry points, `CPreprocessor::Parse`, and the constant extractor of
`GLSLLinkProgramManager`.  The driver answers from the calls made so far. -/
structure Environment where
  /-- The handle `glCreateShaderObjectARB` returns, the call included in the
  history. -/
  createShaderObject : List GLCall → Nat
  /-- The value `glGetObjectParameterivARB` stores for
  `GL_OBJECT_COMPILE_STATUS_ARB`, the query included in the history. -/
  compileStatus : List GLCall → Int
  /-- Whether the error query made right after the history reports a GL error. -/
  errorReported : List GLCall → Bool
  /-- The result of `cpp.Parse` on a source after the given `Define` calls:
  `none` for a null buffer, otherwise the `out_size` characters of the buffer. -/
  Parse : List DefineCall → CString → Option CString
  /-- The call `extractConstantDefs(source, defs, prefix)`, returning `defs` as
  it leaves them. -/
  extractConstantDefs : CString → GpuNamedConstants → CString → GpuNamedConstants

/-- Modelled from the spec: `checkForGLSLError` (CmGLSLExtSupport), which is not
part of the sources at hand.  It is the "check-error(context-label)" call made
right after a graphics call: a failure the context reports is "raised as a
rendering-API exception", and so is the failure the caller forces with
`forceException` (the "force exception if not compiled" of `compile`). -/
def checkForGLSLError (env : Environment) (ogreMethod errorTextPrefix : String) (_obj : Nat)
    (_forceInfoLog forceException : Bool) (gl : List GLCall) : Except Exception Unit :=
  if env.errorReported gl || forceException then
    .error (.RenderingAPIException errorTextPrefix ogreMethod)
  else .ok ()

/-! ## The shader object -/

/-- The members of `GLSLProgram` (and of its bases) the translation unit reads
or writes.  `isSupported` is the answer of the base-class query `isSupported()`;
`mAssemblerProgram` tells whether the pointer is set. -/
structure GLSLProgram where
  mType : GpuProgramType
  mSource : CString
  mPreprocessorDefines : CString
  mGLHandle : Nat
  mCompiled : Int
  isSupported : Bool
  mHighLevelLoaded : Bool
  mAssemblerProgram : Bool
  mConstantDefs : GpuNamedConstants
  mAttachedGLSLPrograms : List GLSLProgram

/-- The outcome of a method: what it returned or raised, the object and the
context as it left them. -/
structure Run (α : Type) where
  result : Except Exception α
  self : GLSLProgram
  gl : List GLCall

/-- The method `GLSLProgram::compile`, lines 168-190. -/
def compile (env : Environment) (checkErrors : Bool) (p : GLSLProgram) (gl : List GLCall) :
    Run Bool :=
  let gl := if checkErrors then gl ++ [.logObjectInfo "GLSL compiling: " p.mGLHandle] else gl
  let gl := gl ++ [.glCompileShaderARB p.mGLHandle]
  -- check for compile errors
  let gl := gl ++ [.glGetObjectParameterivARB p.mGLHandle GL_OBJECT_COMPILE_STATUS_ARB]
  let p := { p with mCompiled := env.compileStatus gl }
  -- force exception if not compiled
  if checkErrors then
    match checkForGLSLError env "GLSLProgram::compile" "Cannot compile GLSL high-level shader : "
        p.mGLHandle (decide (p.mCompiled = 0)) (decide (p.mCompiled = 0)) gl with
    | .error e => ⟨.error e, p, gl⟩
    | .ok _ =>
      let gl := if p.mCompiled ≠ 0 then gl ++ [.logObjectInfo "GLSL compiled : " p.mGLHandle]
        else gl
      ⟨.ok (decide (p.mCompiled = 1)), p, gl⟩
  else ⟨.ok (decide (p.mCompiled = 1)), p, gl⟩

/-- Lines 63-85 of `loadFromSource`: only create a shader object if glsl is
supported. -/
def createShaderObject (env : Environment) (p : GLSLProgram) (gl : List GLCall) : Run Unit :=
  if p.isSupported then
    match checkForGLSLError env "GLSLProgram::loadFromSource"
        "GL Errors before creating shader object" 0 false false gl with
    | .error e => ⟨.error e, p, gl⟩
    | .ok _ =>
      let shaderType :=
        match p.mType with
        | .GPT_VERTEX_PROGRAM => GL_VERTEX_SHADER_ARB
        | .GPT_FRAGMENT_PROGRAM => GL_FRAGMENT_SHADER_ARB
        | .GPT_GEOMETRY_PROGRAM => GL_GEOMETRY_SHADER_EXT
      let gl := gl ++ [.glCreateShaderObjectARB shaderType]
      let p := { p with mGLHandle := env.createShaderObject gl }
      ⟨checkForGLSLError env "GLSLProgram::loadFromSource" "Error creating GLSL shader object"
        0 false false gl, p, gl⟩
  else ⟨.ok (), p, gl⟩

/-- The method `GLSLProgram::loadFromSource`, lines 61-165.  The result is `none`
only if the macro loop were to run out of rounds, which it never does
(`loadFromSource_returns`).  The `compile()` that ends it takes the default
argument of the declaration, which is not part of the sources at hand: the
specification gives it as `compile(checkErrors = true)`. -/
def loadFromSource (env : Environment) (p : GLSLProgram) (gl : List GLCall) :
    Option (Run Unit) :=
  let r := createShaderObject env p gl
  match r.result with
  | .error e => some ⟨.error e, r.self, r.gl⟩
  | .ok _ =>
    let p := r.self
    let gl := r.gl
    -- Pass all user-defined macros to preprocessor
    match macroDefines p.mPreprocessorDefines with
    | none => none
    | some defines =>
      match env.Parse defines p.mSource with
      | none => some ⟨.error (.RenderingAPIException "Failed to preprocess shader "
          "GLSLProgram::loadFromSource"), p, gl⟩
      | some out =>
        if out.length = 0 then
          -- Failed to preprocess, break out
          some ⟨.error (.RenderingAPIException "Failed to preprocess shader "
            "GLSLProgram::loadFromSource"), p, gl⟩
        else
          let p := { p with mSource := out }
          -- Add preprocessor extras and main source
          let upload : Except Exception Unit × List GLCall :=
            if p.mSource.isEmpty then (.ok (), gl)
            else
              let gl := gl ++ [.glShaderSourceARB p.mGLHandle p.mSource]
              -- check for load errors
              (checkForGLSLError env "GLSLProgram::loadFromSource"
                "Cannot load GLSL high-level shader source : " 0 false false gl, gl)
          match upload.1 with
          | .error e => some ⟨.error e, p, upload.2⟩
          | .ok _ =>
            let c := compile env true p upload.2
            match c.result with
            | .error e => some ⟨.error e, c.self, c.gl⟩
            | .ok _ => some ⟨.ok (), c.self, c.gl⟩

/-- The method `GLSLProgram::unloadHighLevelImpl`, lines 208-214. -/
def unloadHighLevelImpl (p : GLSLProgram) (gl : List GLCall) : GLSLProgram × List GLCall :=
  if p.isSupported then (p, gl ++ [.glDeleteObjectARB p.mGLHandle]) else (p, gl)

/-- Modelled from the spec: `HighLevelGpuProgram::unloadHighLevel`, the
base-class hook `unloadImpl` calls, which is not part of the sources at hand.
Unloading "must be idempotent (safe to call on an already-unloaded object)" and
the "handle is destroyed exactly once on unload": the hook runs
`unloadHighLevelImpl` only while the object is loaded, and marks it unloaded.
The base class has no access to the members `GLSLProgram` adds. -/
def unloadHighLevel (p : GLSLProgram) (gl : List GLCall) : GLSLProgram × List GLCall :=
  if p.mHighLevelLoaded then
    let r := unloadHighLevelImpl p gl
    ({ r.1 with mHighLevelLoaded := false }, r.2)
  else (p, gl)

/-- The method `GLSLProgram::unloadImpl`, lines 198-206. -/
def unloadImpl (p : GLSLProgram) (gl : List GLCall) : GLSLProgram × List GLCall :=
  let p := { p with mAssemblerProgram := false }
  unloadHighLevel p gl

/-- Modelled from the spec: `createParameterMappingStructures(true)` of the
base class, which is not part of the sources at hand: it "allocates/clears the
constant table". -/
def createParameterMappingStructures (_recreateIfExists : Bool) : GpuNamedConstants := []

/-- The loop of `buildConstantDefinitions` over the attached shaders, lines
236-244. -/
def extractAttached (env : Environment) : List GLSLProgram → GpuNamedConstants → GpuNamedConstants
  | [], defs => defs
  | childShader :: rest, defs =>
    extractAttached env rest (env.extractConstantDefs childShader.mSource defs [])

/-- The method `GLSLProgram::buildConstantDefinitions`, lines 224-245. -/
def buildConstantDefinitions (env : Environment) (p : GLSLProgram) : GLSLProgram :=
  -- parse the source code manually and extract the uniforms
  let defs := createParameterMappingStructures true
  let defs := env.extractConstantDefs p.mSource defs []
  -- Also parse any attached sources
  { p with mConstantDefs := extractAttached env p.mAttachedGLSLPrograms defs }

/-! ## Attaching and detaching -/

/-- The number of shader objects of an attachment tree. -/
def GLSLProgram.nodes : GLSLProgram → Nat
  | ⟨_, _, _, _, _, _, _, _, _, cs⟩ => 1 + nodesOf cs
where
  /-- The number of shader objects of a list of attachment trees. -/
  nodesOf : List GLSLProgram → Nat
    | [] => 0
    | c :: cs => c.nodes + nodesOf cs

mutual
/-- The method `GLSLProgram::detachFromProgramObject`, lines 314-330. -/
def detachFromProgramObject (env : Environment) (programObject : Nat) :
    GLSLProgram → List GLCall → Except Exception Unit × List GLCall
  | ⟨_, _, _, mGLHandle, _, _, _, _, _, mAttachedGLSLPrograms⟩, gl =>
    let gl := gl ++ [.glDetachObjectARB programObject mGLHandle]
    match checkForGLSLError env "GLSLProgram::detachFromProgramObject"
        "Error detaching shader object from GLSL Program Object" programObject false false gl with
    | .error e => (.error e, gl)
    | .ok _ => detachChildren env programObject mAttachedGLSLPrograms gl
/-- The `while` loop of `detachFromProgramObject` over the attached shaders. -/
def detachChildren (env : Environment) (programObject : Nat) :
    List GLSLProgram → List GLCall → Except Exception Unit × List GLCall
  | [], gl => (.ok (), gl)
  | childShader :: rest, gl =>
    match detachFromProgramObject env programObject childShader gl with
    | (.error e, gl) => (.error e, gl)
    | (.ok _, gl) => detachChildren env programObject rest gl
end

mutual
/-- The method `GLSLProgram::attachToProgramObject`, lines 288-312: the
attached shaders first, then the object's own handle. -/
def attachToProgramObject (env : Environment) (programObject : Nat) (p : GLSLProgram)
    (gl : List GLCall) : Run Unit :=
  -- attach child objects
  match attachChildren env programObject p.mAttachedGLSLPrograms gl with
  | (.error e, children, gl) => ⟨.error e, { p with mAttachedGLSLPrograms := children }, gl⟩
  | (.ok _, children, gl) =>
    let gl := gl ++ [.glAttachObjectARB programObject p.mGLHandle]
    ⟨checkForGLSLError env "GLSLProgram::attachToProgramObject"
      "Error attaching shader object to GLSL Program Object" programObject false false gl,
      { p with mAttachedGLSLPrograms := children }, gl⟩
termination_by 2 * p.nodes
decreasing_by
  cases p
  simp only [GLSLProgram.nodes]
  omega
/-- The `while` loop of `attachToProgramObject` over the attached shaders: each
is recompiled without error checking and then attached itself.  The result
lists the attached shaders as the loop leaves them. -/
def attachChildren (env : Environment) (programObject : Nat) (children : List GLSLProgram)
    (gl : List GLCall) : Except Exception Unit × List GLSLProgram × List GLCall :=
  match children with
  | [] => (.ok (), [], gl)
  | childShader :: rest =>
    -- don't check for compile errors since there won't be any
    let c := compile env false childShader gl
    match c.result with
    | .error e => (.error e, c.self :: rest, c.gl)
    | .ok _ =>
      let a := attachToProgramObject env programObject c.self c.gl
      match a.result with
      | .error e => (.error e, a.self :: rest, a.gl)
      | .ok _ =>
        match attachChildren env programObject rest a.gl with
        | (r, rest, gl) => (r, a.self :: rest, gl)
termination_by 2 * GLSLProgram.nodes.nodesOf children + 1
decreasing_by
  · have h : ∀ (q : GLSLProgram) (g : List GLCall),
        (compile env false q g).self.nodes = q.nodes := by
      intro q g
      cases q
      simp [compile, GLSLProgram.nodes]
    simp only [GLSLProgram.nodes.nodesOf, h]
    omega
  · have h : ∀ (q : GLSLProgram) (n : Nat), 2 * n + 1 < 2 * (q.nodes + n) + 1 := by
      intro q n
      cases q
      simp only [GLSLProgram.nodes]
      omega
    exact h _ _
end

/-! ## Vocabulary of the properties: compiling, loading, unloading -/

/-- The six names of the render operation types. -/
def operationTypeNames : List String :=
  ["point_list", "line_list", "line_strip", "triangle_list", "triangle_strip", "triangle_fan"]

/-- The calls `compile` has made on the context when the driver answers its
status query. -/
def compileHistory (checkErrors : Bool) (p : GLSLProgram) (gl : List GLCall) : List GLCall :=
  if checkErrors then
    gl ++ [.logObjectInfo "GLSL compiling: " p.mGLHandle, .glCompileShaderARB p.mGLHandle,
      .glGetObjectParameterivARB p.mGLHandle GL_OBJECT_COMPILE_STATUS_ARB]
  else
    gl ++ [.glCompileShaderARB p.mGLHandle,
      .glGetObjectParameterivARB p.mGLHandle GL_OBJECT_COMPILE_STATUS_ARB]

/-- The compile status the driver reports to `compile`. -/
def statusReported (env : Environment) (checkErrors : Bool) (p : GLSLProgram)
    (gl : List GLCall) : Int :=
  env.compileStatus (compileHistory checkErrors p gl)

/-- A driver that reports no error, compiles every shader, and hands out the
handle 7; a preprocessor that returns its input; an extractor that finds
nothing. -/
def quietEnvironment : Environment where
  createShaderObject := fun _ => 7
  compileStatus := fun _ => 1
  errorReported := fun _ => false
  Parse := fun _ source => some source
  extractConstantDefs := fun _ defs _ => defs

/-- A shader object with the given handle and attached shaders: loaded,
supported and compiled, with the source `void f(){}`. -/
def shaderObject (mGLHandle : Nat) (mAttachedGLSLPrograms : List GLSLProgram) : GLSLProgram where
  mType := .GPT_VERTEX_PROGRAM
  mSource := ['v', 'o', 'i', 'd', ' ', 'f', '(', ')', '{', '}']
  mPreprocessorDefines := []
  mGLHandle := mGLHandle
  mCompiled := 1
  isSupported := true
  mHighLevelLoaded := true
  mAssemblerProgram := true
  mConstantDefs := []
  mAttachedGLSLPrograms := mAttachedGLSLPrograms

/-! ## Vocabulary of the properties: constant tables -/

/-- The table insertion that leaves a name alone when the table has it. -/
def insertIfAbsent (defs : GpuNamedConstants) (e : CString × GpuConstantDefinition) :
    GpuNamedConstants :=
  if (defs.lookup e.1).isSome then defs else defs ++ [e]

/-- An extractor that inserts a name only when it is absent: called with the
empty prefix on a source, it leaves every name the table defines with the
definition it has, and gives every other name the first definition among the
declarations `found source` it finds in the source, if there is one. -/
def InsertsWhenAbsent (env : Environment)
    (found : CString → List (CString × GpuConstantDefinition)) : Prop :=
  ∀ source defs n, (env.extractConstantDefs source defs []).lookup n =
    ((defs.lookup n).orElse fun _ => (found source).lookup n)

/-- A toy declaration scan: every character of a source declares the uniform of
that name, with the length of the source as its type code. -/
def charDeclarations (source : CString) : List (CString × GpuConstantDefinition) :=
  source.map fun c => ([c], ⟨source.length, 1⟩)

/-- The environment whose extractor inserts the `charDeclarations` of a source
when absent. -/
def charEnvironment : Environment :=
  { quietEnvironment with
    extractConstantDefs := fun source defs _ => (charDeclarations source).foldl insertIfAbsent defs }

/-- A shader object with the given source and attached shaders. -/
def shaderWithSource (mSource : CString) (mAttachedGLSLPrograms : List GLSLProgram) :
    GLSLProgram :=
  { shaderObject 0 mAttachedGLSLPrograms with mSource := mSource }

/-- The parent of the constant-table example: source `ab`, with two attached
shaders of sources `bc` and `cd`. -/
def constantsExample : GLSLProgram :=
  shaderWithSource ['a', 'b'] [shaderWithSource ['b', 'c'] [], shaderWithSource ['c', 'd'] []]

/-! ## Vocabulary of the properties: loading -/

/-- The source uploads and the compile requests among the calls of a context. -/
def uploadsAndCompiles (gl : List GLCall) : List GLCall :=
  gl.filter fun c =>
    match c with
    | .glShaderSourceARB _ _ => true
    | .glCompileShaderARB _ => true
    | _ => false

/-- The exception `loadFromSource` raises when preprocessing fails. -/
def preprocessFailure : Exception :=
  .RenderingAPIException "Failed to preprocess shader " "GLSLProgram::loadFromSource"

/-- The preprocessor returns no buffer, or a result of length 0, for the source
and the macro configuration of the object. -/
def PreprocessorFails (env : Environment) (p : GLSLProgram) : Prop :=
  ∃ defines, macroDefines p.mPreprocessorDefines = some defines ∧
    (env.Parse defines p.mSource = none ∨ env.Parse defines p.mSource = some [])

/-- An environment whose preprocessor returns no buffer. -/
def failingPreprocessor : Environment :=
  { quietEnvironment with Parse := fun _ _ => none }

/-- An environment whose driver compiles nothing: the status it reports is 0. -/
def failingCompiler : Environment :=
  { quietEnvironment with compileStatus := fun _ => 0 }

/-- A shader object of a language the platform does not support: not loaded,
not compiled, its handle left at 0. -/
def unsupportedShader : GLSLProgram :=
  { shaderObject 0 [] with isSupported := false, mHighLevelLoaded := false, mCompiled := 0 }

/-! ## Vocabulary of the properties: attachment trees -/

mutual
/-- The handles of an attachment tree in pre-order: the object's own handle
first, then the subtree of each attached shader in attachment order. -/
def preOrder : GLSLProgram → List Nat
  | ⟨_, _, _, mGLHandle, _, _, _, _, _, mAttachedGLSLPrograms⟩ =>
    mGLHandle :: preOrderAll mAttachedGLSLPrograms
/-- The pre-orders of a list of attachment trees, one after the other. -/
def preOrderAll : List GLSLProgram → List Nat
  | [] => []
  | c :: cs => preOrder c ++ preOrderAll cs
end

mutual
/-- The handles of an attachment tree in post-order: the subtree of each
attached shader in attachment order, then the object's own handle. -/
def postOrder : GLSLProgram → List Nat
  | ⟨_, _, _, mGLHandle, _, _, _, _, _, mAttachedGLSLPrograms⟩ =>
    postOrderAll mAttachedGLSLPrograms ++ [mGLHandle]
/-- The post-orders of a list of attachment trees, one after the other. -/
def postOrderAll : List GLSLProgram → List Nat
  | [] => []
  | c :: cs => postOrder c ++ postOrderAll cs
end

/-- The attach order as the specification words it: for each attached shader
in attachment order its handle first, then the handles of the shaders attached
to it, and the handle of the root last. -/
def childFirstOrder (p : GLSLProgram) : List Nat :=
  (p.mAttachedGLSLPrograms.map fun c =>
    c.mGLHandle :: c.mAttachedGLSLPrograms.map (·.mGLHandle)).flatten ++ [p.mGLHandle]

/-- The handles attached to the program object, in the order of the
`glAttachObjectARB` calls of a context. -/
def attachCalls (programObject : Nat) (gl : List GLCall) : List Nat :=
  gl.filterMap fun c =>
    match c with
    | .glAttachObjectARB containerObj obj => if containerObj = programObject then some obj else none
    | _ => none

/-- The handles detached from the program object, in the order of the
`glDetachObjectARB` calls of a context. -/
def detachCalls (programObject : Nat) (gl : List GLCall) : List Nat :=
  gl.filterMap fun c =>
    match c with
    | .glDetachObjectARB containerObj obj => if containerObj = programObject then some obj else none
    | _ => none

/-- The driver reports no GL error, whatever calls were made. -/
def NoErrorReported (env : Environment) : Prop :=
  ∀ gl, env.errorReported gl = false

/-- The attachment tree of the examples: a root of handle 1, with the attached
shaders 2 (itself with the attached shader 3) and 4. -/
def attachmentExample : GLSLProgram :=
  shaderObject 1 [shaderObject 2 [shaderObject 3 []], shaderObject 4 []]

/-- What a run of `attachToProgramObject` is to do when no error is reported:
raise nothing and add the attach calls of the post-order of the tree. -/
def AttachesPostOrder (env : Environment) (programObject : Nat) (p : GLSLProgram) : Prop :=
  ∀ gl, ∃ p1 gl1, attachToProgramObject env programObject p gl = ⟨.ok (), p1, gl1⟩ ∧
    attachCalls programObject gl1 = attachCalls programObject gl ++ postOrder p

/-- What the loop over the attached shaders is to do when no error is reported:
raise nothing and add the attach calls of the post-orders of the trees. -/
def AttachesAllPostOrder (env : Environment) (programObject : Nat) (cs : List GLSLProgram) :
    Prop :=
  ∀ gl, ∃ cs1 gl1, attachChildren env programObject cs gl = (.ok (), cs1, gl1) ∧
    attachCalls programObject gl1 = attachCalls programObject gl ++ postOrderAll cs

/-! ## Vocabulary of the properties: macro configurations -/

/-- Whether a character is one of the two entry separators. -/
def isSeparator (c : Char) : Bool :=
  c == ';' || c == ','

/-- The other separator for a separator, and the character itself otherwise. -/
def swapSeparator (c : Char) : Char :=
  if c = ';' then ',' else if c = ',' then ';' else c

/-- The string with the separators at the flagged positions replaced by the
other separator; positions past the end of the flags are left alone. -/
def replaceSeparators : List Bool → CString → CString
  | _, [] => []
  | [], cs => cs
  | b :: bs, c :: cs => (if b then swapSeparator c else c) :: replaceSeparators bs cs

/-- Two strings that differ only in which of the two separators stands where. -/
def SameUpToSeparators (s t : CString) : Prop :=
  List.Forall₂ (fun a b => a = b ∨ (isSeparator a = true ∧ isSeparator b = true)) s t

/-- The `(name, value)` defines the macro loop passes to the preprocessor for a
configuration string. -/
def definesPassed (s : CString) : Option (List (CString × CString)) :=
  (macroDefines s).map fun calls => calls.map DefineCall.define

/-- A delimiter set that holds both separators. -/
def HoldsSeparators (delims : CString) : Prop :=
  ∀ c, isSeparator c = true → delims.contains c = true

/-- One entry of a macro configuration: a name with an optional value. -/
structure MacroEntry where
  name : CString
  value : Option CString

/-- How an entry is written: `name`, or `name=value`. -/
def MacroEntry.text (e : MacroEntry) : CString :=
  match e.value with
  | none => e.name
  | some v => e.name ++ '=' :: v

/-- The define an entry stands for: its value, or `1` when it has none. -/
def MacroEntry.define (e : MacroEntry) : CString × CString :=
  (e.name, e.value.getD ['1'])

/-- A well-formed entry: a non-empty name with none of `;`, `,`, `=`, and a
value, if any, with neither `;` nor `,`. -/
def MacroEntry.WellFormed (e : MacroEntry) : Prop :=
  e.name ≠ [] ∧ (∀ c ∈ e.name, [';', ',', '='].contains c = false) ∧
    ∀ v, e.value = some v → ∀ c ∈ v, [';', ','].contains c = false

/-- The configuration string of a list of entries: the entries as written,
joined by the given separators in turn (by `;` once they run out). -/
def joinEntries : List MacroEntry → List Char → CString
  | [], _ => []
  | [e], _ => e.text
  | e :: e' :: es, seps => e.text ++ seps.headD ';' :: joinEntries (e' :: es) seps.tail

/-- The entries the macro loop defines: all of them, but for a last entry
without a value. -/
def definedEntries : List MacroEntry → List MacroEntry
  | [] => []
  | [e] => if e.value.isSome then [e] else []
  | e :: e' :: es => e :: definedEntries (e' :: es)

/-- The `Define` call for an entry. -/
def MacroEntry.call (e : MacroEntry) : DefineCall :=
  match e.value with
  | none => .number e.name 1
  | some v => .text e.name v

/-! # Properties -/

/-! ## Operation types -/

/-- C10: parsing the name of any of the six operation types gives the type
back; naming the parse of a string gives the string back when it is one of the
six names, and `triangle_list` for every other string. -/
theorem operationType_roundtrip :
    (∀ t : OperationType, parseOperationType (operationTypeToString t) = t) ∧
    (∀ s : String, operationTypeToString (parseOperationType s) =
      if s ∈ operationTypeNames then s else "triangle_list") := by
  constructor
  · intro t
    cases t <;> decide
  · intro s
    unfold parseOperationType operationTypeNames
    split_ifs <;> simp_all [operationTypeToString]

/-! ## Compiling -/

/-- C4: whatever status the driver reports, `compile(false)` raises nothing and
returns true exactly when the status is 1; `compile(true)` raises when the
status is 0, and when it raises nothing it returns true exactly when the status
is 1. -/
theorem compile_checkErrors (env : Environment) (p : GLSLProgram) (gl : List GLCall) :
    (compile env false p gl).result = .ok (decide (statusReported env false p gl = 1)) ∧
    (statusReported env true p gl = 0 → ∃ e, (compile env true p gl).result = .error e) ∧
    (∀ b, (compile env true p gl).result = .ok b →
      (b = true ↔ statusReported env true p gl = 1)) := by
  refine ⟨?_, ?_, ?_⟩
  · simp [compile, statusReported, compileHistory]
  · intro h0
    simp only [statusReported, compileHistory, if_true] at h0
    simp [compile, checkForGLSLError, h0]
  · intro b hb
    simp only [compile, if_true, statusReported, compileHistory, List.append_assoc,
      List.singleton_append, List.nil_append] at hb ⊢
    split at hb
    · cases hb
    · simp only [Except.ok.injEq] at hb
      rw [← hb]
      simp

/-- C4, on a shader the driver fails to compile: status 0 makes `compile(true)`
raise and `compile(false)` return false. -/
theorem compile_checkErrors_witness :
    statusReported failingCompiler true (shaderObject 3 []) [] = 0 ∧
      (∃ e, (compile failingCompiler true (shaderObject 3 []) []).result = .error e) ∧
      (compile failingCompiler false (shaderObject 3 []) []).result = .ok false :=
  ⟨rfl, (compile_checkErrors failingCompiler (shaderObject 3 []) []).2.1 rfl,
    (compile_checkErrors failingCompiler (shaderObject 3 []) []).1⟩

/-! ## Unloading -/

/-- C8, as the code has it: unloading a loaded shader object deletes its handle
exactly when the language is supported and makes no other call, leaves the
attachment list and the compiled flag as they were, and a second unload changes
nothing further and deletes nothing. -/
theorem unloadImpl_twice (p : GLSLProgram) (gl : List GLCall)
    (hloaded : p.mHighLevelLoaded = true) :
    (unloadImpl p gl).2 = (if p.isSupported then gl ++ [.glDeleteObjectARB p.mGLHandle] else gl) ∧
    (unloadImpl p gl).1.mAttachedGLSLPrograms = p.mAttachedGLSLPrograms ∧
    (unloadImpl p gl).1.mCompiled = p.mCompiled ∧
    unloadImpl (unloadImpl p gl).1 (unloadImpl p gl).2 = unloadImpl p gl := by
  cases hs : p.isSupported <;>
    simp [unloadImpl, unloadHighLevel, unloadHighLevelImpl, hloaded, hs]

/-- C8 on a loaded, supported shader with one attached shader: one delete of
handle 1, and none for the second unload. -/
theorem unloadImpl_twice_witness :
    (shaderObject 1 [shaderObject 2 []]).mHighLevelLoaded = true ∧
      (unloadImpl (shaderObject 1 [shaderObject 2 []]) []).2 = [.glDeleteObjectARB 1] ∧
      (unloadImpl (unloadImpl (shaderObject 1 [shaderObject 2 []]) []).1
        (unloadImpl (shaderObject 1 [shaderObject 2 []]) []).2).2 = [.glDeleteObjectARB 1] :=
  ⟨rfl, (unloadImpl_twice (shaderObject 1 [shaderObject 2 []]) [] rfl).1,
    by rw [(unloadImpl_twice (shaderObject 1 [shaderObject 2 []]) [] rfl).2.2.2]; rfl⟩

/-- C8 as stated fails: after unloading a compiled shader with one attached
shader, the attachment list still holds that shader and the compiled flag still
reads 1. -/
theorem unloadImpl_keeps_attachments :
    ¬ ((unloadImpl (shaderObject 1 [shaderObject 2 []]) []).1.mAttachedGLSLPrograms = [] ∧
      (unloadImpl (shaderObject 1 [shaderObject 2 []]) []).1.mCompiled = 0) := by
  intro h
  have h1 : (unloadImpl (shaderObject 1 [shaderObject 2 []]) []).1.mCompiled = 1 := rfl
  rw [h1] at h
  exact absurd h.2 (by decide)

/-! ## Constant definitions -/

/-- Reading a name in two tables put end to end reads the first table first. -/
theorem lookup_append_tables (n : CString) (t l : GpuNamedConstants) :
    (t ++ l).lookup n = ((t.lookup n).orElse fun _ => l.lookup n) := by
  induction t with
  | nil => simp [List.lookup, Option.orElse]
  | cons e t ih =>
    obtain ⟨k, d⟩ := e
    simp only [List.cons_append, List.lookup]
    split
    · simp [Option.orElse]
    · exact ih

/-- Inserting declarations when absent keeps what the table defines and adds
the first declaration of every other name. -/
theorem lookup_foldl_insertIfAbsent (n : CString) (l t : GpuNamedConstants) :
    (l.foldl insertIfAbsent t).lookup n = ((t.lookup n).orElse fun _ => l.lookup n) := by
  induction l generalizing t with
  | nil => cases h : t.lookup n <;> simp [Option.orElse, List.lookup, h]
  | cons e l ih =>
    obtain ⟨k, d⟩ := e
    rw [List.foldl_cons, ih]
    unfold insertIfAbsent
    by_cases hk : n = k
    · subst hk
      cases ht : t.lookup n
      · simp [ht, lookup_append_tables, Option.orElse, List.lookup]
      · simp [ht, Option.orElse]
    · have hb : (n == k) = false := by simpa using hk
      cases hkt : t.lookup k
      · cases ht : t.lookup n <;>
          simp [hkt, ht, lookup_append_tables, Option.orElse, List.lookup, hb]
      · simp [hkt, List.lookup, hb]

/-- The loop over the attached shaders is the left fold of the extractor over
their sources. -/
theorem extractAttached_eq_foldl (env : Environment) (cs : List GLSLProgram)
    (defs : GpuNamedConstants) :
    extractAttached env cs defs =
      (cs.map (·.mSource)).foldl (fun t source => env.extractConstantDefs source t []) defs := by
  induction cs generalizing defs with
  | nil => rfl
  | cons c cs ih => simp [extractAttached, ih]

/-- A definition the table holds outlasts the extraction of further sources. -/
theorem lookup_foldl_extract_of_some (env : Environment)
    (found : CString → List (CString × GpuConstantDefinition)) (h : InsertsWhenAbsent env found)
    (n : CString) (d : GpuConstantDefinition) (srcs : List CString) (t : GpuNamedConstants)
    (ht : t.lookup n = some d) :
    (srcs.foldl (fun t source => env.extractConstantDefs source t []) t).lookup n = some d := by
  induction srcs generalizing t with
  | nil => exact ht
  | cons s srcs ih =>
    rw [List.foldl_cons]
    apply ih
    rw [h, ht]
    rfl

/-- A name found in one of the sources is defined after their extraction. -/
theorem lookup_foldl_extract_isSome (env : Environment)
    (found : CString → List (CString × GpuConstantDefinition)) (h : InsertsWhenAbsent env found)
    (n : CString) (srcs : List CString) (t : GpuNamedConstants) (s : CString) (hs : s ∈ srcs)
    (hn : ((found s).lookup n).isSome = true) :
    ((srcs.foldl (fun t source => env.extractConstantDefs source t []) t).lookup n).isSome
      = true := by
  induction srcs generalizing t with
  | nil => cases hs
  | cons s0 srcs ih =>
    rw [List.foldl_cons]
    rcases List.mem_cons.1 hs with rfl | hmem
    · obtain ⟨d, hd⟩ : ∃ d, (env.extractConstantDefs s t []).lookup n = some d := by
        rw [h]
        cases ht : t.lookup n
        · obtain ⟨d, hd⟩ := Option.isSome_iff_exists.1 hn
          exact ⟨d, by simp [Option.orElse, hd]⟩
        · exact ⟨_, rfl⟩
      rw [lookup_foldl_extract_of_some env found h n d srcs _ hd]
      rfl
    · exact ih _ hmem

/-- C7: `buildConstantDefinitions` leaves the table got from the empty table by
applying the extractor, with empty prefix, to the object's source and then to
the source of each attached shader in attachment order; and when the extractor
inserts a name only if it is absent, a name found in the parent keeps the
parent's definition, and every name found in an attached shader is defined. -/
theorem buildConstantDefinitions_merge (env : Environment) (p : GLSLProgram) :
    (buildConstantDefinitions env p).mConstantDefs =
      (p.mAttachedGLSLPrograms.map (·.mSource)).foldl
        (fun t source => env.extractConstantDefs source t [])
        (env.extractConstantDefs p.mSource [] []) ∧
    ∀ found, InsertsWhenAbsent env found →
      (∀ n d, (found p.mSource).lookup n = some d →
        (buildConstantDefinitions env p).mConstantDefs.lookup n = some d) ∧
      (∀ c ∈ p.mAttachedGLSLPrograms, ∀ n, ((found c.mSource).lookup n).isSome = true →
        ((buildConstantDefinitions env p).mConstantDefs.lookup n).isSome = true) := by
  have hfold : (buildConstantDefinitions env p).mConstantDefs =
      (p.mAttachedGLSLPrograms.map (·.mSource)).foldl
        (fun t source => env.extractConstantDefs source t [])
        (env.extractConstantDefs p.mSource [] []) := by
    simp [buildConstantDefinitions, createParameterMappingStructures, extractAttached_eq_foldl]
  refine ⟨hfold, fun found h => ⟨fun n d hd => ?_, fun c hc n hn => ?_⟩⟩
  · rw [hfold]
    apply lookup_foldl_extract_of_some env found h
    rw [h]
    simp [List.lookup, Option.orElse, hd]
  · rw [hfold]
    exact lookup_foldl_extract_isSome env found h n _ _ c.mSource
      (List.mem_map.2 ⟨c, hc, rfl⟩) hn

/-- C7 on a parent `ab` with attached shaders `bc` and `cd`: the name `b` keeps
the parent's definition and the name `d` of the second child is defined. -/
theorem buildConstantDefinitions_merge_witness :
    InsertsWhenAbsent charEnvironment charDeclarations ∧
      (buildConstantDefinitions charEnvironment constantsExample).mConstantDefs.lookup ['b']
        = some ⟨2, 1⟩ ∧
      ((buildConstantDefinitions charEnvironment constantsExample).mConstantDefs.lookup
        ['d']).isSome = true :=
  ⟨fun _ _ _ => lookup_foldl_insertIfAbsent _ _ _,
    ((buildConstantDefinitions_merge charEnvironment constantsExample).2 charDeclarations
      (fun _ _ _ => lookup_foldl_insertIfAbsent _ _ _)).1 ['b'] ⟨2, 1⟩ (by decide),
    ((buildConstantDefinitions_merge charEnvironment constantsExample).2 charDeclarations
      (fun _ _ _ => lookup_foldl_insertIfAbsent _ _ _)).2 (shaderWithSource ['c', 'd'] [])
      (List.Mem.tail _ (List.Mem.head _)) ['d'] (by decide)⟩

/-! ## The macro loop ends -/

/-- A delimiter found by the scan lies among the scanned characters. -/
theorem findFrom_bounds (delims : CString) (cs : CString) (i e : Nat)
    (h : findFrom delims cs i = some e) : i ≤ e ∧ e < i + cs.length := by
  induction cs generalizing i with
  | nil => simp [findFrom] at h
  | cons c cs ih =>
    simp only [findFrom] at h
    split at h
    · simp only [Option.some.injEq] at h
      subst h
      simp
    · have := ih (i + 1) h
      simp only [List.length_cons]
      omega

/-- A delimiter found from `pos` is an index of the string at or after `pos`. -/
theorem find_first_of_bounds (s delims : CString) (pos e : Nat)
    (h : find_first_of s delims pos = some e) : pos ≤ e ∧ e < s.length := by
  have := findFrom_bounds delims (s.drop pos) pos e h
  simp only [List.length_drop] at this
  omega

/-- The macro loop ends within `size + 2 - pos` rounds from position `pos`. -/
theorem macroLoop_terminates (s : CString) (fuel pos : Nat) (defs : List DefineCall)
    (hpos : pos ≤ s.length) (hfuel : s.length + 2 ≤ fuel + pos) :
    ∃ r, macroLoop s fuel (some pos) defs = some r := by
  induction fuel generalizing pos defs with
  | zero => omega
  | succ fuel ih =>
    have hnone : ∀ d, ∃ r, macroLoop s fuel none d = some r := by
      intro d
      obtain ⟨k, rfl⟩ : ∃ k, fuel = k + 1 := ⟨fuel - 1, by omega⟩
      exact ⟨d, rfl⟩
    simp only [macroLoop]
    cases h1 : find_first_of s [';', ',', '='] pos with
    | none => exact hnone _
    | some endPos =>
      have b1 := find_first_of_bounds _ _ _ _ h1
      simp only []
      split
      · cases h2 : find_first_of s [';', ','] (endPos + 1) with
        | none => exact hnone _
        | some endPos2 =>
          have b2 := find_first_of_bounds _ _ _ _ h2
          exact ih _ _ (by omega) (by omega)
      · exact ih _ _ (by omega) (by omega)

/-- The macro loop of `loadFromSource` ends on every configuration string. -/
theorem macroDefines_terminates (s : CString) : ∃ defines, macroDefines s = some defines := by
  unfold macroDefines
  split
  · exact ⟨[], rfl⟩
  · exact macroLoop_terminates s _ 0 [] (by omega) (by omega)

/-- The method `loadFromSource` returns or raises, for every object. -/
theorem loadFromSource_returns (env : Environment) (p : GLSLProgram) (gl : List GLCall) :
    ∃ r, loadFromSource env p gl = some r := by
  obtain ⟨defines, hd⟩ := macroDefines_terminates (createShaderObject env p gl).self.mPreprocessorDefines
  unfold loadFromSource
  simp only [hd]
  repeat' split
  all_goals exact ⟨_, rfl⟩

/-! ## Loading -/

/-- Creating the shader object touches neither the source nor the macro
configuration, and makes no upload and no compile request. -/
theorem createShaderObject_frame (env : Environment) (p : GLSLProgram) (gl : List GLCall) :
    (createShaderObject env p gl).self.mSource = p.mSource ∧
    (createShaderObject env p gl).self.mPreprocessorDefines = p.mPreprocessorDefines ∧
    (createShaderObject env p gl).self.isSupported = p.isSupported ∧
    uploadsAndCompiles (createShaderObject env p gl).gl = uploadsAndCompiles gl := by
  unfold createShaderObject
  split
  · split <;> simp [uploadsAndCompiles]
  · simp

/-- C5: when the preprocessor returns no buffer or an empty result,
`loadFromSource` raises, with no source upload and no compile request made and
the stored source as it was; the exception is the preprocessor failure whenever
the handle creation before it raised nothing, that is, whenever the
preprocessor is reached. -/
theorem loadFromSource_preprocess_failure (env : Environment) (p : GLSLProgram)
    (gl : List GLCall) (hfail : PreprocessorFails env p) :
    ∃ r, loadFromSource env p gl = some r ∧
      (∃ e, r.result = .error e) ∧
      ((createShaderObject env p gl).result = .ok () → r.result = .error preprocessFailure) ∧
      uploadsAndCompiles r.gl = uploadsAndCompiles gl ∧
      r.self.mSource = p.mSource := by
  obtain ⟨defines, hd, hparse⟩ := hfail
  obtain ⟨hsrc, hdef, -, hgl⟩ := createShaderObject_frame env p gl
  unfold loadFromSource
  simp only [hdef, hsrc, hd]
  cases hc : (createShaderObject env p gl).result with
  | error e => exact ⟨_, rfl, ⟨e, rfl⟩, (fun h => by cases h), hgl, hsrc⟩
  | ok u =>
    rcases hparse with hp | hp
    · simp only [hp]
      exact ⟨_, rfl, ⟨_, rfl⟩, fun _ => rfl, hgl, hsrc⟩
    · simp only [hp, List.length_nil, if_true]
      exact ⟨_, rfl, ⟨_, rfl⟩, fun _ => rfl, hgl, hsrc⟩

/-- C5 on a supported shader whose preprocessor returns no buffer: the load
raises the preprocessor failure right after creating the handle. -/
theorem loadFromSource_preprocess_failure_witness :
    PreprocessorFails failingPreprocessor (shaderObject 3 []) ∧
      ∃ r, loadFromSource failingPreprocessor (shaderObject 3 []) [] = some r ∧
        (∃ e, r.result = .error e) ∧
        ((createShaderObject failingPreprocessor (shaderObject 3 []) []).result = .ok () →
          r.result = .error preprocessFailure) ∧
        uploadsAndCompiles r.gl = uploadsAndCompiles [] ∧
        r.self.mSource = (shaderObject 3 []).mSource :=
  ⟨⟨[], rfl, Or.inl rfl⟩,
    loadFromSource_preprocess_failure failingPreprocessor (shaderObject 3 []) []
      ⟨[], rfl, Or.inl rfl⟩⟩

/-- On an unsupported platform `loadFromSource` creates no handle, and once the
preprocessor has returned a text it still uploads that text to the handle the
object happens to hold and goes on to `compile` with error checking. -/
theorem loadFromSource_unsupported (env : Environment) (p : GLSLProgram) (gl : List GLCall)
    (defines : List DefineCall) (out : CString) (hsup : p.isSupported = false)
    (hd : macroDefines p.mPreprocessorDefines = some defines)
    (hparse : env.Parse defines p.mSource = some out) (hout : out ≠ [])
    (hquiet : env.errorReported (gl ++ [.glShaderSourceARB p.mGLHandle out]) = false) :
    ∃ r, loadFromSource env p gl = some r ∧
      r.result = ((compile env true { p with mSource := out }
        (gl ++ [.glShaderSourceARB p.mGLHandle out])).result.map fun _ => ()) ∧
      r.gl = (compile env true { p with mSource := out }
        (gl ++ [.glShaderSourceARB p.mGLHandle out])).gl ∧
      r.self.mSource = out ∧ r.self.mGLHandle = p.mGLHandle := by
  have hlen : out.length ≠ 0 := by
    intro h
    exact hout (List.length_eq_zero.1 h)
  have hemp : out.isEmpty = false := by
    cases out with
    | nil => exact absurd rfl hout
    | cons c cs => rfl
  have hc : createShaderObject env p gl = ⟨.ok (), p, gl⟩ := by
    simp [createShaderObject, hsup]
  have hself : ∀ g, (compile env true { p with mSource := out } g).self.mSource = out ∧
      (compile env true { p with mSource := out } g).self.mGLHandle = p.mGLHandle := by
    intro g
    simp only [compile, if_true]
    split <;> exact ⟨rfl, rfl⟩
  unfold loadFromSource
  simp only [hc, hd, hparse, hlen, hemp, checkForGLSLError, hquiet, Bool.or_self,
    Bool.false_eq_true, if_false]
  split
  · next e he => exact ⟨_, rfl, by simp [he, Except.map], rfl, (hself _).1, (hself _).2⟩
  · next b hb => exact ⟨_, rfl, by simp [hb, Except.map], rfl, (hself _).1, (hself _).2⟩

/-- C6 fails on the code: for a shader of an unsupported language, with a
preprocessor that returns the source and a driver that reports status 0 for the
handle never created, `loadFromSource` uploads the source to handle 0, compiles
it with error checking (the `GLSL compiling: ` log entry) and raises the compile
error. -/
theorem loadFromSource_unsupported_compiles :
    (loadFromSource failingCompiler unsupportedShader []).map (fun r => (r.result, r.gl)) =
      some (.error (.RenderingAPIException "Cannot compile GLSL high-level shader : "
          "GLSLProgram::compile"),
        [.glShaderSourceARB 0 ['v', 'o', 'i', 'd', ' ', 'f', '(', ')', '{', '}'],
          .logObjectInfo "GLSL compiling: " 0,
          .glCompileShaderARB 0,
          .glGetObjectParameterivARB 0 GL_OBJECT_COMPILE_STATUS_ARB]) := by
  rfl

/-! ## Detaching -/

mutual
/-- With no error reported, detaching an attachment tree makes exactly the
detach calls of its pre-order. -/
theorem detachFromProgramObject_run (env : Environment) (programObject : Nat)
    (hquiet : NoErrorReported env) :
    ∀ (p : GLSLProgram) (gl : List GLCall),
      detachFromProgramObject env programObject p gl =
        (.ok (), gl ++ (preOrder p).map (GLCall.glDetachObjectARB programObject))
  | ⟨_, _, _, h, _, _, _, _, _, cs⟩, gl => by
    simp only [detachFromProgramObject, checkForGLSLError, hquiet _, Bool.or_self,
      Bool.false_eq_true, if_false]
    rw [detachChildren_run env programObject hquiet cs]
    simp [preOrder]
/-- With no error reported, the loop over the attached shaders makes exactly
the detach calls of their pre-orders. -/
theorem detachChildren_run (env : Environment) (programObject : Nat)
    (hquiet : NoErrorReported env) :
    ∀ (cs : List GLSLProgram) (gl : List GLCall),
      detachChildren env programObject cs gl =
        (.ok (), gl ++ (preOrderAll cs).map (GLCall.glDetachObjectARB programObject))
  | [], gl => by simp [detachChildren, preOrderAll]
  | c :: cs, gl => by
    simp only [detachChildren]
    rw [detachFromProgramObject_run env programObject hquiet c]
    simp only []
    rw [detachChildren_run env programObject hquiet cs]
    simp [preOrderAll]
end

/-- The detach calls among calls that are all detach calls on the program
object. -/
theorem detachCalls_append_map (programObject : Nat) (gl : List GLCall) (hs : List Nat) :
    detachCalls programObject (gl ++ hs.map (GLCall.glDetachObjectARB programObject)) =
      detachCalls programObject gl ++ hs := by
  induction hs with
  | nil => simp [detachCalls]
  | cons h hs ih =>
    simp only [detachCalls, List.filterMap_append, List.map_cons, List.filterMap_cons,
      if_true, List.append_cancel_left_eq, List.cons.injEq, true_and] at ih ⊢
    exact ih

/-- C3: with no GPU error reported, `detachFromProgramObject` on the root of an
attachment tree raises nothing and its calls on the context are exactly the
detach calls in the pre-order of the tree: the object's own handle first, then
the subtree of each attached shader in attachment order. -/
theorem detachFromProgramObject_preOrder (env : Environment) (programObject : Nat)
    (p : GLSLProgram) (gl : List GLCall) (hquiet : NoErrorReported env) :
    detachFromProgramObject env programObject p gl =
        (.ok (), gl ++ (preOrder p).map (GLCall.glDetachObjectARB programObject)) ∧
      detachCalls programObject (detachFromProgramObject env programObject p gl).2 =
        detachCalls programObject gl ++ preOrder p := by
  rw [detachFromProgramObject_run env programObject hquiet p gl]
  exact ⟨rfl, detachCalls_append_map programObject gl _⟩

/-- C3 on a root 1 with the attached leaves 2 and 4: the detach calls are 1, 2,
4. -/
theorem detachFromProgramObject_preOrder_witness :
    NoErrorReported quietEnvironment ∧
      detachCalls 9 (detachFromProgramObject quietEnvironment 9
        (shaderObject 1 [shaderObject 2 [], shaderObject 4 []]) []).2 = [1, 2, 4] :=
  ⟨fun _ => rfl,
    (detachFromProgramObject_preOrder quietEnvironment 9
      (shaderObject 1 [shaderObject 2 [], shaderObject 4 []]) [] (fun _ => rfl)).2⟩

/-! ## Attaching -/

/-- Recompiling without error checking raises nothing, attaches nothing, and
leaves the attachment tree and its handles as they were. -/
theorem compile_false_frame (env : Environment) (programObject : Nat) (p : GLSLProgram)
    (gl : List GLCall) :
    (∃ b, (compile env false p gl).result = .ok b) ∧
    attachCalls programObject (compile env false p gl).gl = attachCalls programObject gl ∧
    postOrder (compile env false p gl).self = postOrder p ∧
    (compile env false p gl).self.nodes = p.nodes := by
  cases p
  simp [compile, attachCalls, postOrder, GLSLProgram.nodes]

/-- The attach calls of two runs of calls, one after the other. -/
theorem attachCalls_append (programObject : Nat) (a b : List GLCall) :
    attachCalls programObject (a ++ b) = attachCalls programObject a ++ attachCalls programObject b := by
  simp [attachCalls, List.filterMap_append]

/-- The attach calls of the single call attaching `h` to the program object. -/
theorem attachCalls_attach (programObject h : Nat) :
    attachCalls programObject [.glAttachObjectARB programObject h] = [h] := by
  simp [attachCalls]

/-- The loop is right on a list of trees when `attachToProgramObject` is right
on every tree no larger than the list. -/
theorem attachChildren_of_bound (env : Environment) (programObject : Nat) (n : Nat)
    (hA : ∀ p : GLSLProgram, p.nodes ≤ n → AttachesPostOrder env programObject p) :
    ∀ cs : List GLSLProgram, GLSLProgram.nodes.nodesOf cs ≤ n →
      AttachesAllPostOrder env programObject cs := by
  intro cs
  induction cs with
  | nil =>
    intro _ gl
    rw [attachChildren]
    exact ⟨[], gl, rfl, by simp [postOrderAll]⟩
  | cons c cs ihcs =>
    intro hcs gl
    simp only [GLSLProgram.nodes.nodesOf] at hcs
    obtain ⟨⟨b, hb⟩, hcalls, hpost, hnodes⟩ := compile_false_frame env programObject c gl
    obtain ⟨p1, gl1, h1, hc1⟩ :=
      hA (compile env false c gl).self (by omega) (compile env false c gl).gl
    obtain ⟨cs2, gl2, h2, hc2⟩ := ihcs (by omega) gl1
    rw [attachChildren]
    simp only [hb, h1, h2]
    exact ⟨_, _, rfl, by rw [hc2, hc1, hcalls, hpost]; simp [postOrderAll]⟩

/-- The method is right on a tree when the loop is right on the shaders
attached to its root. -/
theorem attachToProgramObject_of_children (env : Environment) (programObject : Nat)
    (hquiet : NoErrorReported env) (p : GLSLProgram)
    (hB : AttachesAllPostOrder env programObject p.mAttachedGLSLPrograms) :
    AttachesPostOrder env programObject p := by
  intro gl
  obtain ⟨k1, g1, hk1, hkc1⟩ := hB gl
  rw [attachToProgramObject]
  simp only [hk1, checkForGLSLError, hquiet _, Bool.or_self, Bool.false_eq_true, if_false]
  refine ⟨_, _, rfl, ?_⟩
  rw [attachCalls_append, attachCalls_attach, hkc1]
  cases p
  simp [postOrder]

/-- With no error reported, every attachment tree of at most `n` shader objects
is attached in post-order. -/
theorem attach_run_bounded (env : Environment) (programObject : Nat)
    (hquiet : NoErrorReported env) (n : Nat) :
    ∀ p : GLSLProgram, p.nodes ≤ n → AttachesPostOrder env programObject p := by
  induction n with
  | zero =>
    intro p hp
    cases p
    simp [GLSLProgram.nodes] at hp
  | succ n ih =>
    intro p hp
    apply attachToProgramObject_of_children env programObject hquiet
    apply attachChildren_of_bound env programObject n ih
    cases p
    simp only [GLSLProgram.nodes] at hp
    simp only []
    omega

/-- With no error reported, `attachToProgramObject` raises nothing and attaches
the handles of the tree in post-order. -/
theorem attachToProgramObject_run (env : Environment) (programObject : Nat)
    (hquiet : NoErrorReported env) (p : GLSLProgram) (gl : List GLCall) :
    (attachToProgramObject env programObject p gl).result = .ok () ∧
      attachCalls programObject (attachToProgramObject env programObject p gl).gl =
        attachCalls programObject gl ++ postOrder p := by
  obtain ⟨p1, gl1, h, hc⟩ := attach_run_bounded env programObject hquiet p.nodes p le_rfl gl
  rw [h]
  exact ⟨rfl, hc⟩

/-- C2, as the code has it: with no GPU error reported, `attachToProgramObject`
on the root of an attachment tree raises nothing and makes its attach calls in
the post-order of the tree: for each attached shader in attachment order the
calls of the shaders attached to it come first and its own handle after them,
and the handle of the root comes last. -/
theorem attachToProgramObject_postOrder (env : Environment) (programObject : Nat)
    (p : GLSLProgram) (gl : List GLCall) (hquiet : NoErrorReported env) :
    (attachToProgramObject env programObject p gl).result = .ok () ∧
      attachCalls programObject (attachToProgramObject env programObject p gl).gl =
        attachCalls programObject gl ++ postOrder p :=
  attachToProgramObject_run env programObject hquiet p gl

/-- C2 on the root 1 with the attached shaders 2 (holding 3) and 4: the attach
calls are 3, 2, 4, 1. -/
theorem attachToProgramObject_postOrder_witness :
    NoErrorReported quietEnvironment ∧
      attachCalls 9 (attachToProgramObject quietEnvironment 9 attachmentExample []).gl =
        [3, 2, 4, 1] :=
  ⟨fun _ => rfl,
    (attachToProgramObject_postOrder quietEnvironment 9 attachmentExample [] (fun _ => rfl)).2⟩

/-- C2 as stated fails: on the root 1 with the attached shaders 2 (holding 3)
and 4 the attach calls are 3, 2, 4, 1, while the stated order, each attached
shader before the shaders attached to it, is 2, 3, 4, 1. -/
theorem attachToProgramObject_not_childFirst :
    attachCalls 9 (attachToProgramObject quietEnvironment 9 attachmentExample []).gl =
        [3, 2, 4, 1] ∧
      childFirstOrder attachmentExample = [2, 3, 4, 1] ∧
      attachCalls 9 (attachToProgramObject quietEnvironment 9 attachmentExample []).gl ≠
        childFirstOrder attachmentExample := by
  have h := (attachToProgramObject_run quietEnvironment 9 (fun _ => rfl) attachmentExample []).2
  have h1 : attachCalls 9 (attachToProgramObject quietEnvironment 9 attachmentExample []).gl =
      [3, 2, 4, 1] := h
  have h2 : childFirstOrder attachmentExample = [2, 3, 4, 1] := by decide
  refine ⟨h1, h2, ?_⟩
  rw [h1, h2]
  decide

/-! ## The two separators are interchangeable -/

/-- The delimiters `;,=` of the name scan hold both separators. -/
theorem holdsSeparators_three : HoldsSeparators [';', ',', '='] := by
  intro c hc
  simp only [isSeparator, Bool.or_eq_true, beq_iff_eq] at hc
  rcases hc with rfl | rfl <;> decide

/-- The delimiters `;,` of the value scan hold both separators. -/
theorem holdsSeparators_two : HoldsSeparators [';', ','] := by
  intro c hc
  simp only [isSeparator, Bool.or_eq_true, beq_iff_eq] at hc
  rcases hc with rfl | rfl <;> decide

/-- Replacing separators by separators gives a string that differs only in its
separators. -/
theorem replaceSeparators_same (flags : List Bool) (s : CString) :
    SameUpToSeparators s (replaceSeparators flags s) := by
  induction s generalizing flags with
  | nil => cases flags <;> exact List.Forall₂.nil
  | cons c cs ih =>
    cases flags with
    | nil => exact List.forall₂_same.2 fun _ _ => Or.inl rfl
    | cons b bs =>
      refine List.Forall₂.cons ?_ (ih bs)
      cases b
      · exact Or.inl rfl
      · simp only [if_true, swapSeparator, isSeparator]
        by_cases h1 : c = ';'
        · subst h1; right; decide
        · by_cases h2 : c = ','
          · subst h2; right; decide
          · left; simp [h1, h2]

/-- The scan finds its delimiter at the same index in two strings that differ
only in their separators. -/
theorem findFrom_same (delims : CString) (hd : HoldsSeparators delims) (cs cs' : CString)
    (h : SameUpToSeparators cs cs') (i : Nat) : findFrom delims cs i = findFrom delims cs' i := by
  induction h generalizing i with
  | nil => rfl
  | cons hab _ ih =>
    simp only [findFrom]
    rcases hab with rfl | ⟨ha, hb⟩
    · rw [ih]
    · rw [if_pos (hd _ ha), if_pos (hd _ hb)]

/-- The call `find_first_of` answers the same on two strings that differ only in
their separators. -/
theorem find_first_of_same (delims : CString) (hd : HoldsSeparators delims) (s s' : CString)
    (h : SameUpToSeparators s s') (pos : Nat) :
    find_first_of s delims pos = find_first_of s' delims pos :=
  findFrom_same delims hd _ _ (List.forall₂_drop pos h) pos

/-- The characters before the delimiter found are the same in two strings that
differ only in their separators. -/
theorem take_same_of_findFrom (delims : CString) (hd : HoldsSeparators delims) (cs cs' : CString)
    (h : SameUpToSeparators cs cs') (i e : Nat) (hf : findFrom delims cs i = some e) :
    cs.take (e - i) = cs'.take (e - i) := by
  induction h generalizing i with
  | nil => rfl
  | @cons a b l l' hab _ ih =>
    simp only [findFrom] at hf
    split at hf
    · simp only [Option.some.injEq] at hf
      subst hf
      simp
    · next hna =>
      have hle := (findFrom_bounds delims l (i + 1) e hf).1
      obtain ⟨k, hk⟩ : ∃ k, e - i = k + 1 := ⟨e - i - 1, by omega⟩
      have hk' : e - (i + 1) = k := by omega
      rw [hk, List.take_succ_cons, List.take_succ_cons, ← hk', ih (i + 1) hf]
      rcases hab with rfl | ⟨ha, _⟩
      · rfl
      · exact absurd (hd _ ha) hna

/-- Two strings that differ only in their separators and hold no delimiter are
the same string. -/
theorem eq_of_findFrom_none (delims : CString) (hd : HoldsSeparators delims) (cs cs' : CString)
    (h : SameUpToSeparators cs cs') (i : Nat) (hf : findFrom delims cs i = none) : cs = cs' := by
  induction h generalizing i with
  | nil => rfl
  | @cons a b l l' hab _ ih =>
    simp only [findFrom] at hf
    split at hf
    · cases hf
    · next hna =>
      rw [ih (i + 1) hf]
      rcases hab with rfl | ⟨ha, _⟩
      · rfl
      · exact absurd (hd _ ha) hna

/-- The character `=` stands at the same places in two strings that differ only in
their separators. -/
theorem charAt_same (s s' : CString) (h : SameUpToSeparators s s') (pos : Nat) :
    charAt s pos = '=' ↔ charAt s' pos = '=' := by
  induction h generalizing pos with
  | nil => rfl
  | @cons a b l l' hab _ ih =>
    cases pos with
    | zero =>
      simp only [charAt, List.getD_cons_zero]
      rcases hab with rfl | ⟨ha, hb⟩
      · rfl
      · simp only [isSeparator, Bool.or_eq_true, beq_iff_eq] at ha hb
        constructor
        · intro h; subst h; rcases ha with h | h <;> exact absurd h (by decide)
        · intro h; subst h; rcases hb with h | h <;> exact absurd h (by decide)
    | succ pos =>
      simpa [charAt] using ih pos

/-- The macro loop makes the same `Define` calls on two strings that differ only
in their separators. -/
theorem macroLoop_same (s s' : CString) (h : SameUpToSeparators s s') (fuel : Nat)
    (pos : Option Nat) (defs : List DefineCall) :
    macroLoop s fuel pos defs = macroLoop s' fuel pos defs := by
  induction fuel generalizing pos defs with
  | zero => rfl
  | succ fuel ih =>
    cases pos with
    | none => rfl
    | some pos =>
      have hlen : s.length = s'.length := List.Forall₂.length_eq h
      simp only [macroLoop]
      rw [← find_first_of_same _ holdsSeparators_three s s' h pos]
      cases h1 : find_first_of s [';', ',', '='] pos with
      | none => exact ih _ _
      | some endPos =>
        have hname : substr s pos (endPos - pos) = substr s' pos (endPos - pos) :=
          take_same_of_findFrom _ holdsSeparators_three _ _ (List.forall₂_drop pos h) pos endPos h1
        simp only []
        by_cases heq : charAt s endPos = '='
        · rw [if_pos heq, if_pos ((charAt_same s s' h endPos).1 heq),
            ← find_first_of_same _ holdsSeparators_two s s' h (endPos + 1)]
          cases h2 : find_first_of s [';', ','] (endPos + 1) with
          | none =>
            have hval : s.drop (endPos + 1) = s'.drop (endPos + 1) :=
              eq_of_findFrom_none _ holdsSeparators_two _ _
                (List.forall₂_drop (endPos + 1) h) (endPos + 1) h2
            simp only [substr] at hname ⊢
            rw [hname, hval, hlen]
            exact ih _ _
          | some endPos2 =>
            have hval : substr s (endPos + 1) (endPos2 - (endPos + 1)) =
                substr s' (endPos + 1) (endPos2 - (endPos + 1)) :=
              take_same_of_findFrom _ holdsSeparators_two _ _
                (List.forall₂_drop (endPos + 1) h) (endPos + 1) endPos2 h2
            simp only []
            rw [hname, hval]
            exact ih _ _
        · rw [if_neg heq, if_neg (fun h' => heq ((charAt_same s s' h endPos).2 h')), hname]
          exact ih _ _

/-- The `Define` calls of `loadFromSource` are the same for two configuration
strings that differ only in their separators. -/
theorem macroDefines_same (s s' : CString) (h : SameUpToSeparators s s') :
    macroDefines s = macroDefines s' := by
  unfold macroDefines
  have hlen : s.length = s'.length := List.Forall₂.length_eq h
  have hemp : s.isEmpty = s'.isEmpty := by
    cases h <;> rfl
  rw [hemp, hlen, macroLoop_same s s' h]

/-- C9: for every macro configuration string, well formed or not, the macro
loop ends and the `(name, value)` defines it passes to the preprocessor are the
same after any of the `;` are replaced by `,` and any of the `,` by `;`. -/
theorem definesPassed_replaceSeparators (s : CString) (flags : List Bool) :
    ∃ defines, definesPassed s = some defines ∧
      definesPassed (replaceSeparators flags s) = some defines := by
  obtain ⟨calls, hc⟩ := macroDefines_terminates s
  refine ⟨calls.map DefineCall.define, ?_, ?_⟩
  · simp [definesPassed, hc]
  · simp [definesPassed, ← macroDefines_same s _ (replaceSeparators_same flags s), hc]

/-! ## The defines of a list of entries -/

/-- Searching from the end of a prefix is scanning what follows it. -/
theorem find_first_of_append (pre t delims : CString) :
    find_first_of (pre ++ t) delims pre.length = findFrom delims t pre.length := by
  simp [find_first_of]

/-- The scan finds nothing among characters that are no delimiters. -/
theorem findFrom_clean_none (delims a : CString) (i : Nat)
    (ha : ∀ x ∈ a, delims.contains x = false) : findFrom delims a i = none := by
  induction a generalizing i with
  | nil => rfl
  | cons x a ih =>
    have hx : delims.contains x = false := ha x (List.mem_cons_self _ _)
    simp only [findFrom, hx, Bool.false_eq_true, if_false]
    exact ih _ fun y hy => ha y (List.mem_cons_of_mem _ hy)

/-- The scan finds the first delimiter after characters that are none. -/
theorem findFrom_clean_some (delims a : CString) (c : Char) (r : CString) (i : Nat)
    (ha : ∀ x ∈ a, delims.contains x = false) (hc : delims.contains c = true) :
    findFrom delims (a ++ c :: r) i = some (i + a.length) := by
  induction a generalizing i with
  | nil => simp only [List.nil_append, findFrom, hc, if_true, List.length_nil, Nat.add_zero]
  | cons x a ih =>
    have hx : delims.contains x = false := ha x (List.mem_cons_self _ _)
    have h := ih (i + 1) fun y hy => ha y (List.mem_cons_of_mem _ hy)
    rw [List.cons_append]
    simp only [findFrom, hx, Bool.false_eq_true, if_false]
    rw [h]
    simp only [List.length_cons]
    congr 1
    omega

/-- The characters after a prefix, as many as the next part has, are that part. -/
theorem substr_append (pre a r : CString) : substr (pre ++ (a ++ r)) pre.length a.length = a := by
  simp [substr]

/-- The character read at the length of a prefix is the one that follows it. -/
theorem charAt_append (pre : CString) (c : Char) (r : CString) :
    charAt (pre ++ c :: r) pre.length = c := by
  induction pre with
  | nil => rfl
  | cons x pre ih => simpa [charAt] using ih

/-- Searching from an index that is the length of a prefix of the string. -/
theorem find_first_of_at (s pre t delims : CString) (n : Nat) (hs : s = pre ++ t)
    (hn : n = pre.length) : find_first_of s delims n = findFrom delims t n := by
  subst hs hn
  exact find_first_of_append pre t delims

/-- The part of a string that stands at an index that is the length of a prefix. -/
theorem substr_at (s pre a r : CString) (n m : Nat) (hs : s = pre ++ (a ++ r))
    (hn : n = pre.length) (hm : m = a.length) : substr s n m = a := by
  subst hs hn hm
  exact substr_append pre a r

/-- The character of a string at an index that is the length of a prefix. -/
theorem charAt_at (s pre : CString) (c : Char) (r : CString) (n : Nat) (hs : s = pre ++ c :: r)
    (hn : n = pre.length) : charAt s n = c := by
  subst hs hn
  exact charAt_append pre c r

/-- A separator is not the character `=`. -/
theorem separator_ne_eq (sep : Char) (hsep : isSeparator sep = true) : sep ≠ '=' := by
  intro h
  subst h
  exact absurd hsep (by decide)

/-- The round of the loop on `name` followed by a separator. -/
theorem macroLoop_name_sep (pre name : CString) (sep : Char) (r : CString) (fuel : Nat)
    (defs : List DefineCall) (hname : ∀ c ∈ name, [';', ',', '='].contains c = false)
    (hsep : isSeparator sep = true) :
    macroLoop (pre ++ (name ++ sep :: r)) (fuel + 1) (some pre.length) defs =
      macroLoop (pre ++ (name ++ sep :: r)) fuel (some (pre.length + name.length + 1))
        (defs ++ [.number name 1]) := by
  have hf : find_first_of (pre ++ (name ++ sep :: r)) [';', ',', '='] pre.length =
      some (pre.length + name.length) := by
    rw [find_first_of_append, findFrom_clean_some _ _ _ _ _ hname (holdsSeparators_three _ hsep)]
  have hch : charAt (pre ++ (name ++ sep :: r)) (pre.length + name.length) = sep :=
    charAt_at _ (pre ++ name) sep r _ (by simp) (by simp)
  have hsub : substr (pre ++ (name ++ sep :: r)) pre.length (pre.length + name.length - pre.length)
      = name := substr_at _ pre name (sep :: r) _ _ rfl rfl (by omega)
  simp only [macroLoop, hf, hch, if_neg (separator_ne_eq sep hsep), hsub]

/-- The round of the loop on a last `name` without a value: nothing is defined. -/
theorem macroLoop_name_end (pre name : CString) (fuel : Nat) (defs : List DefineCall)
    (hname : ∀ c ∈ name, [';', ',', '='].contains c = false) :
    macroLoop (pre ++ name) (fuel + 1) (some pre.length) defs =
      macroLoop (pre ++ name) fuel none defs := by
  have hf : find_first_of (pre ++ name) [';', ',', '='] pre.length = none := by
    rw [find_first_of_append, findFrom_clean_none _ _ _ hname]
  simp only [macroLoop, hf]

/-- The round of the loop on `name=value` followed by a separator. -/
theorem macroLoop_value_sep (pre name v : CString) (sep : Char) (r : CString) (fuel : Nat)
    (defs : List DefineCall) (hname : ∀ c ∈ name, [';', ',', '='].contains c = false)
    (hv : ∀ c ∈ v, [';', ','].contains c = false) (hsep : isSeparator sep = true) :
    macroLoop (pre ++ (name ++ '=' :: (v ++ sep :: r))) (fuel + 1) (some pre.length) defs =
      macroLoop (pre ++ (name ++ '=' :: (v ++ sep :: r))) fuel
        (some (pre.length + name.length + 1 + v.length + 1)) (defs ++ [.text name v]) := by
  have hf : find_first_of (pre ++ (name ++ '=' :: (v ++ sep :: r))) [';', ',', '='] pre.length =
      some (pre.length + name.length) := by
    rw [find_first_of_append, findFrom_clean_some _ _ _ _ _ hname (by decide)]
  have hch : charAt (pre ++ (name ++ '=' :: (v ++ sep :: r))) (pre.length + name.length) = '=' :=
    charAt_at _ (pre ++ name) '=' (v ++ sep :: r) _ (by simp) (by simp)
  have hsub : substr (pre ++ (name ++ '=' :: (v ++ sep :: r))) pre.length
      (pre.length + name.length - pre.length) = name :=
    substr_at _ pre name ('=' :: (v ++ sep :: r)) _ _ rfl rfl (by omega)
  have hf2 : find_first_of (pre ++ (name ++ '=' :: (v ++ sep :: r))) [';', ',']
      (pre.length + name.length + 1) = some (pre.length + name.length + 1 + v.length) := by
    rw [find_first_of_at _ (pre ++ name ++ ['=']) (v ++ sep :: r) _ _ (by simp) (by simp; omega),
      findFrom_clean_some _ _ _ _ _ hv (holdsSeparators_two _ hsep)]
  have hval : substr (pre ++ (name ++ '=' :: (v ++ sep :: r))) (pre.length + name.length + 1)
      (pre.length + name.length + 1 + v.length - (pre.length + name.length + 1)) = v :=
    substr_at _ (pre ++ name ++ ['=']) v (sep :: r) _ _ (by simp) (by simp; omega) (by omega)
  simp only [macroLoop, hf, hch, if_true, hsub, hf2, hval]

/-- The round of the loop on a last `name=value`. -/
theorem macroLoop_value_end (pre name v : CString) (fuel : Nat) (defs : List DefineCall)
    (hname : ∀ c ∈ name, [';', ',', '='].contains c = false)
    (hv : ∀ c ∈ v, [';', ','].contains c = false) :
    macroLoop (pre ++ (name ++ '=' :: v)) (fuel + 1) (some pre.length) defs =
      macroLoop (pre ++ (name ++ '=' :: v)) fuel none (defs ++ [.text name v]) := by
  have hf : find_first_of (pre ++ (name ++ '=' :: v)) [';', ',', '='] pre.length =
      some (pre.length + name.length) := by
    rw [find_first_of_append, findFrom_clean_some _ _ _ _ _ hname (by decide)]
  have hch : charAt (pre ++ (name ++ '=' :: v)) (pre.length + name.length) = '=' :=
    charAt_at _ (pre ++ name) '=' v _ (by simp) (by simp)
  have hsub : substr (pre ++ (name ++ '=' :: v)) pre.length
      (pre.length + name.length - pre.length) = name :=
    substr_at _ pre name ('=' :: v) _ _ rfl rfl (by omega)
  have hf2 : find_first_of (pre ++ (name ++ '=' :: v)) [';', ',']
      (pre.length + name.length + 1) = none := by
    rw [find_first_of_at _ (pre ++ name ++ ['=']) v _ _ (by simp) (by simp; omega),
      findFrom_clean_none _ _ _ hv]
  have hval : substr (pre ++ (name ++ '=' :: v)) (pre.length + name.length + 1)
      ((pre ++ (name ++ '=' :: v)).length - (pre.length + name.length + 1)) = v :=
    substr_at _ (pre ++ name ++ ['=']) v [] _ _ (by simp) (by simp; omega)
      (by simp only [List.length_append, List.length_cons]; omega)
  simp only [macroLoop, hf, hch, if_true, hsub, hf2, hval]

/-- The separator taken from a list of separators, or `;`, is a separator. -/
theorem headD_separator (seps : List Char) (hseps : ∀ c ∈ seps, isSeparator c = true) :
    isSeparator (seps.headD ';') = true := by
  cases seps with
  | nil => decide
  | cons c cs => exact hseps c (List.mem_cons_self _ _)

/-- What the macro loop does on the configuration string of well-formed
entries: one `Define` call per entry, in order, but none for a last entry
without a value. -/
theorem macroLoop_joinEntries (es : List MacroEntry) :
    ∀ (seps : List Char) (pre : CString) (fuel : Nat) (defs : List DefineCall),
      es ≠ [] → (∀ e ∈ es, e.WellFormed) → (∀ c ∈ seps, isSeparator c = true) →
      es.length + 1 ≤ fuel →
      macroLoop (pre ++ joinEntries es seps) fuel (some pre.length) defs =
        some (defs ++ (definedEntries es).map MacroEntry.call) := by
  induction es with
  | nil => intro _ _ _ _ h; exact absurd rfl h
  | cons e rest ih =>
    intro seps pre fuel defs _ hwf hseps hfuel
    obtain ⟨-, hname, hvalue⟩ := hwf e (List.mem_cons_self _ _)
    obtain ⟨name, value⟩ := e
    simp only [] at hname hvalue
    cases rest with
    | nil =>
      obtain ⟨f, rfl⟩ : ∃ f, fuel = f + 2 := ⟨fuel - 2, by simp at hfuel; omega⟩
      cases value with
      | none =>
        simp only [joinEntries, MacroEntry.text]
        rw [macroLoop_name_end pre name _ defs hname]
        simp [macroLoop, definedEntries]
      | some v =>
        simp only [joinEntries, MacroEntry.text]
        rw [macroLoop_value_end pre name v _ defs hname (hvalue v rfl)]
        simp [macroLoop, definedEntries, MacroEntry.call]
    | cons e' es' =>
      obtain ⟨f, rfl⟩ : ∃ f, fuel = f + 1 := ⟨fuel - 1, by simp at hfuel; omega⟩
      have hsep := headD_separator seps hseps
      have hrest := fun (p : CString) (d : List DefineCall) =>
        ih seps.tail p f d (List.cons_ne_nil _ _)
          (fun x hx => hwf x (List.mem_cons_of_mem _ hx))
          (fun c hc => hseps c (List.mem_of_mem_tail hc))
          (by simp only [List.length_cons] at hfuel ⊢; omega)
      cases value with
      | none =>
        simp only [joinEntries, MacroEntry.text]
        rw [macroLoop_name_sep pre name _ _ f defs hname hsep]
        have h := hrest (pre ++ name ++ [seps.headD ';']) (defs ++ [.number name 1])
        have e1 : pre ++ name ++ [seps.headD ';'] ++ joinEntries (e' :: es') seps.tail =
            pre ++ (name ++ seps.headD ';' :: joinEntries (e' :: es') seps.tail) := by simp
        have e2 : (pre ++ name ++ [seps.headD ';']).length = pre.length + name.length + 1 := by
          simp only [List.length_append, List.length_cons, List.length_nil]
        rw [e1, e2] at h
        rw [h]
        simp [definedEntries, MacroEntry.call]
      | some v =>
        simp only [joinEntries, MacroEntry.text, List.cons_append, List.append_assoc]
        rw [macroLoop_value_sep pre name v _ _ f defs hname (hvalue v rfl) hsep]
        have h := hrest (pre ++ name ++ '=' :: v ++ [seps.headD ';']) (defs ++ [.text name v])
        have e1 : pre ++ name ++ '=' :: v ++ [seps.headD ';'] ++ joinEntries (e' :: es') seps.tail =
            pre ++ (name ++ '=' :: (v ++ seps.headD ';' :: joinEntries (e' :: es') seps.tail)) := by
          simp
        have e2 : (pre ++ name ++ '=' :: v ++ [seps.headD ';']).length =
            pre.length + name.length + 1 + v.length + 1 := by
          simp only [List.length_append, List.length_cons, List.length_nil]
          omega
        rw [e1, e2] at h
        rw [h]
        simp [definedEntries, MacroEntry.call]

/-- The configuration string of well-formed entries has a character for each. -/
theorem length_le_joinEntries (es : List MacroEntry) (seps : List Char)
    (hwf : ∀ e ∈ es, e.WellFormed) : es.length ≤ (joinEntries es seps).length := by
  induction es generalizing seps with
  | nil => simp
  | cons e rest ih =>
    have hne : 1 ≤ e.text.length := by
      obtain ⟨hname, -, -⟩ := hwf e (List.mem_cons_self _ _)
      obtain ⟨name, value⟩ := e
      have : 1 ≤ name.length := by
        cases name with
        | nil => exact absurd rfl hname
        | cons c cs => simp
      cases value <;> simp [MacroEntry.text] <;> omega
    cases rest with
    | nil => simpa [joinEntries] using hne
    | cons e' es' =>
      have := ih seps.tail fun x hx => hwf x (List.mem_cons_of_mem _ hx)
      simp only [joinEntries, List.length_append, List.length_cons] at this ⊢
      omega

/-- The defines of a list of well-formed entries joined by separators: one per
entry, in entry order, with the value of the entry or `1`, except that a last
entry without a value is not defined at all. -/
theorem definesPassed_joinEntries (es : List MacroEntry) (seps : List Char) (hne : es ≠ [])
    (hwf : ∀ e ∈ es, e.WellFormed) (hseps : ∀ c ∈ seps, isSeparator c = true) :
    definesPassed (joinEntries es seps) = some ((definedEntries es).map MacroEntry.define) := by
  have hlen := length_le_joinEntries es seps hwf
  have hpos : 1 ≤ es.length := by
    cases es with
    | nil => exact absurd rfl hne
    | cons e es => simp
  have hemp : (joinEntries es seps).isEmpty = false := by
    cases hj : joinEntries es seps with
    | nil =>
      rw [hj, List.length_nil] at hlen
      omega
    | cons c cs => rfl
  have h := macroLoop_joinEntries es seps [] ((joinEntries es seps).length + 2) [] hne hwf hseps
    (by omega)
  simp only [List.nil_append, List.length_nil] at h
  simp only [definesPassed, macroDefines, hemp, Bool.false_eq_true, if_false, h, Option.map_some',
    List.map_map]
  congr 1
  apply List.map_congr_left
  intro e _
  obtain ⟨name, value⟩ := e
  cases value with
  | none => rfl
  | some v => rfl

/-- C1 fails on the code: for the entries `A=1` and `B`, both well formed and
joined by `;` into `A=1;B`, the macro loop passes the define of `A` alone, while
the entries stand for the two defines `A` = `1` and `B` = `1`. -/
theorem definesPassed_drops_last_name :
    (∀ e ∈ [MacroEntry.mk ['A'] (some ['1']), MacroEntry.mk ['B'] none], e.WellFormed) ∧
      joinEntries [⟨['A'], some ['1']⟩, ⟨['B'], none⟩] [';'] = ['A', '=', '1', ';', 'B'] ∧
      definesPassed ['A', '=', '1', ';', 'B'] = some [(['A'], ['1'])] ∧
      [MacroEntry.mk ['A'] (some ['1']), MacroEntry.mk ['B'] none].map MacroEntry.define =
        [(['A'], ['1']), (['B'], ['1'])] := by
  refine ⟨?_, by decide, by decide, by decide⟩
  intro e he
  simp only [List.mem_cons, List.mem_singleton, List.not_mem_nil, or_false] at he
  rcases he with rfl | rfl
  · exact ⟨by decide, by decide, fun v hv => by cases hv; decide⟩
  · exact ⟨by decide, by decide, fun v hv => by cases hv⟩

/-- The example of the specification: `A=1;B;C=foo` gives the three defines
`A` = `1`, `B` = `1` and `C` = `foo`, with `;` and with `,`. -/
theorem definesPassed_example :
    definesPassed ['A', '=', '1', ';', 'B', ';', 'C', '=', 'f', 'o', 'o'] =
        some [(['A'], ['1']), (['B'], ['1']), (['C'], ['f', 'o', 'o'])] ∧
      definesPassed ['A', '=', '1', ',', 'B', ',', 'C', '=', 'f', 'o', 'o'] =
        some [(['A'], ['1']), (['B'], ['1']), (['C'], ['f', 'o', 'o'])] := by
  constructor <;> decide

end CamelotEngine
